import Mathlib

/-!
Verification of the GAANBOT playback core against its specification.

Shallow embedding of the Python sources:
- `src/utils/cache_manager.py` (`CacheEntry`, `AsyncLRUCache`): the cache mapping is a
  Python dict, modelled as an association list in insertion order (Python dicts preserve
  insertion order; assignment to an existing key keeps its position, new keys append).
  Timestamps are modelled as `Nat`.
- `src/utils/queue.py` (`QueueManager`): each tenant's queue is an independent list; all
  operations touch exactly one tenant's list, so operations are modelled on that list.
  Indices are modelled as `Int` to capture Python's negative-index semantics of
  `list.pop(index)`.
- `src/utils/player.py` (`PlayerState`): per-tenant timing fields, timestamps as `Int`
  (Python floats; only additive arithmetic is performed on them).
- `src/utils/voice.py` (`VoiceManager._reconnect_to_voice`): the reconnection loop,
  with the outcome of each `channel.connect()` attempt supplied as a boolean list and
  the `asyncio.sleep` waits recorded.
-/

namespace GaanBot

section Cache

variable {V E : Type}

/-- `CacheEntry` from cache_manager.py: a value with its expiry timestamp.
The constructor sets `expires_at = time.time() + ttl`. -/
structure CacheEntry (V : Type) where
  value : V
  expires_at : Nat
deriving DecidableEq

/-- `CacheEntry.is_expired`: `time.time() > self.expires_at` (strict comparison). -/
def CacheEntry.is_expired (e : CacheEntry V) (now : Nat) : Bool :=
  decide (e.expires_at < now)

/-- The `self.cache` dict of `AsyncLRUCache`, as an association list in insertion order. -/
abbrev CacheMap (V : Type) := List (String × CacheEntry V)

/-- The keys of the mapping, in dict iteration (insertion) order. -/
def keysOf (c : CacheMap V) : List String := c.map (fun p => p.1)

/-- Dict assignment `self.cache[cache_key] = CacheEntry(...)`: replace in place when the
key is present (a Python dict keeps the key's position), append otherwise. -/
def storeEntry (c : CacheMap V) (k : String) (e : CacheEntry V) : CacheMap V :=
  if k ∈ keysOf c then c.map (fun p => if p.1 = k then (k, e) else p)
  else c ++ [(k, e)]

/-- `sorted(self.cache.keys(), key=lambda k: self.cache[k].expires_at)`: Python's `sorted`
is stable, so this is a stable sort of the mapping by expiry. -/
def sortByExpiry (c : CacheMap V) : CacheMap V :=
  c.mergeSort (fun a b => decide (a.2.expires_at ≤ b.2.expires_at))

/-- The `oldest_keys` list of `get_or_compute` (cache_manager.py lines 101-104): the
first `size - maxsize` keys of the mapping sorted by expiry. -/
def oldestKeys (c : CacheMap V) (maxsize : Nat) : List String :=
  ((sortByExpiry c).take (c.length - maxsize)).map (fun q => q.1)

/-- The trim step of `get_or_compute` (cache_manager.py lines 99-107): when the size
exceeds `maxsize`, delete the `oldest_keys` (the `size - maxsize` keys with the soonest
expiry). -/
def trimCache (c : CacheMap V) (maxsize : Nat) : CacheMap V :=
  if maxsize < c.length then
    c.filter (fun p => decide (p.1 ∉ oldestKeys c maxsize))
  else c

/-- `self.cache.get(cache_key)`. -/
def lookup (c : CacheMap V) (k : String) : Option (CacheEntry V) :=
  (c.find? (fun p => decide (p.1 = k))).map (fun p => p.2)

/-- The miss branch of `get_or_compute` (lines 90-112): invoke the compute function; on
failure re-raise with the mapping untouched, on success store the value with
`expires_at = now + ttl` and trim. -/
def computeAndStore (c : CacheMap V) (k : String) (now ttl maxsize : Nat)
    (compute : Except E V) : Except E V × CacheMap V :=
  match compute with
  | Except.error err => (Except.error err, c)
  | Except.ok v => (Except.ok v, trimCache (storeEntry c k ⟨v, now + ttl⟩) maxsize)

/-- `AsyncLRUCache.get_or_compute` for a single key: on an unexpired hit return the cached
value, otherwise compute.  The pre-lock check and the double-check under the lock are
identical in this sequential model. -/
def get_or_compute (c : CacheMap V) (k : String) (now ttl maxsize : Nat)
    (compute : Except E V) : Except E V × CacheMap V :=
  match lookup c k with
  | some e =>
    if e.is_expired now then computeAndStore c k now ttl maxsize compute
    else (Except.ok e.value, c)
  | none => computeAndStore c k now ttl maxsize compute

/-- `AsyncLRUCache.cleanup_expired`: collect the expired keys and delete them; with
distinct keys this keeps exactly the unexpired entries in order. -/
def cleanup_expired (c : CacheMap V) (now : Nat) : CacheMap V :=
  c.filter (fun p => ! p.2.is_expired now)

/-- A run of successful `get_or_compute` calls starting from the empty cache of an
`AsyncLRUCache(maxsize, ttl)`; each op gives the key, the call time and computed value. -/
def runGets (ttl maxsize : Nat) (ops : List (String × Nat × Nat)) : CacheMap Nat :=
  ops.foldl
    (fun c op => (get_or_compute (E := Unit) c op.1 op.2.1 ttl maxsize (Except.ok op.2.2)).2)
    []

/-- Distinctness of the mapping's keys (a Python dict invariant). -/
def KeysNodup (c : CacheMap V) : Prop := (keysOf c).Nodup

end Cache

def exKey : String := "k"

def exKey2 : String := "k2"

section Queue

variable {α : Type}

/-- `QueueManager.max_queue_size`: maximum songs per server queue. -/
def max_queue_size : Nat := 500

/-- `QueueManager.add_song` on one tenant's queue (queue.py lines 12-24):
refuse when at or above the cap, otherwise append. -/
def add_song (q : List α) (s : α) : Bool × List α :=
  if max_queue_size ≤ q.length then (false, q) else (true, q ++ [s])

/-- Python `list.pop(index)`: a negative index counts from the end; returns the popped
element and the remaining list, or nothing (an `IndexError`) when out of range. -/
def pyPop (l : List α) (i : Int) : Option (α × List α) :=
  let j : Int := if i < 0 then i + l.length else i
  if 0 ≤ j then
    match l.get? j.toNat with
    | some x => some (x, l.eraseIdx j.toNat)
    | none => none
  else none

/-- `QueueManager.remove_song` on one tenant's queue (queue.py lines 52-61):
`pop(index)` inside try/except, returning false on `IndexError`. -/
def remove_song (l : List α) (i : Int) : Bool × List α :=
  match pyPop l i with
  | some r => (true, r.2)
  | none => (false, l)

/-- `QueueManager.move_song` on one tenant's queue (queue.py lines 71-85): explicit
bounds check on both indices, then `pop(old_index)` followed by `insert(new_index, song)`. -/
def move_song (l : List α) (old_index new_index : Int) : Bool × List α :=
  if 0 ≤ old_index ∧ old_index < (l.length : Int) ∧
      0 ≤ new_index ∧ new_index < (l.length : Int) then
    match pyPop l old_index with
    | some r => (true, r.2.insertIdx new_index.toNat r.1)
    | none => (false, l)
  else (false, l)

end Queue

section Player

variable {V E : Type}

/-- The per-tenant timing fields of `PlayerState` (player.py): `song_start_times[g]`,
`pause_durations[g]`, `last_pause_time.get(g)`.  Timestamps are Python floats on which
only additive arithmetic is performed, modelled as `Int`. -/
structure PlayerTiming where
  song_start_time : Int
  pause_duration : Int
  last_pause_time : Option Int
deriving DecidableEq

/-- The timing reset of `PlayerState.update_song` (player.py lines 150-153). -/
def update_song_timing (now : Int) : PlayerTiming :=
  { song_start_time := now, pause_duration := 0, last_pause_time := none }

/-- `PlayerState.handle_pause`: records the pause start (overwriting any previous one). -/
def handle_pause (s : PlayerTiming) (now : Int) : PlayerTiming :=
  { s with last_pause_time := some now }

/-- `PlayerState.handle_resume`: if a pause start is recorded, pop it and add the pause
length to the accumulated duration; otherwise do nothing. -/
def handle_resume (s : PlayerTiming) (now : Int) : PlayerTiming :=
  match s.last_pause_time with
  | some p =>
    { song_start_time := s.song_start_time,
      pause_duration := s.pause_duration + (now - p),
      last_pause_time := none }
  | none => s

/-- The elapsed-time computation of `PlayerState.create_progress_bar` (lines 53-61):
`elapsed = now - start_time - pause_duration`, where the running pause is added to
`pause_duration` when the transport is currently paused and a pause start is recorded. -/
def elapsedTime (s : PlayerTiming) (isPaused : Bool) (now : Int) : Int :=
  now - s.song_start_time -
    (if isPaused then
      match s.last_pause_time with
      | some p => s.pause_duration + (now - p)
      | none => s.pause_duration
    else s.pause_duration)

/-- A sequence of completed pause/resume cycles applied to a session state. -/
def applyCycles (s : PlayerTiming) (cycles : List (Int × Int)) : PlayerTiming :=
  cycles.foldl (fun st c => handle_resume (handle_pause st c.1) c.2) s

/-- `PlayerState.extract_song_info` (player.py lines 82-94): first try the cache's
`get_or_compute` with `_extract_song_info_impl`; if that call raises, fall back to one
direct call of `_extract_song_info_impl` and return its result (or raise its own error).
`impl1` and `impl2` are the outcomes of the first (cached) and second (direct) invocation
of `_extract_song_info_impl`. -/
def extract_song_info (c : CacheMap V) (k : String) (now ttl maxsize : Nat)
    (impl1 impl2 : Except E V) : Except E V × CacheMap V :=
  match get_or_compute c k now ttl maxsize impl1 with
  | (Except.ok v, c2) => (Except.ok v, c2)
  | (Except.error _, c2) => (impl2, c2)

end Player

section Voice

/-- `VoiceManager.max_reconnect_attempts`. -/
def max_reconnect_attempts : Nat := 3

/-- `VoiceManager.reconnect_backoff`: base seconds between reconnection attempts. -/
def reconnect_backoff : Nat := 5

/-- The per-tenant state touched by `_reconnect_to_voice` (voice.py):
`player_state.current_songs[g]`, `player_state.voice_clients[g]`,
`self.reconnect_attempts[g]`.  Song record and transport handle are abstract. -/
structure VoiceGuildState where
  current_song : Option Nat
  voice_client : Option Nat
  reconnect_attempts : Nat
deriving DecidableEq

/-- The `while attempts < max_reconnect_attempts` loop of `_reconnect_to_voice`
(voice.py lines 191-267): each iteration waits `reconnect_backoff * 2 ** attempts`
seconds then attempts `channel.connect()`; `outcomes` supplies each attempt's result
(`true` = connected).  On success the handle is stored and the attempt counter reset to
0, then the function returns; on failure the counter is incremented and the loop
retries.  Returns the list of waits performed and the resulting state. -/
def reconnectLoop (g : VoiceGuildState) : List Bool → List Nat × VoiceGuildState
  | [] => ([], g)
  | o :: rest =>
    if g.reconnect_attempts < max_reconnect_attempts then
      if o then
        ([reconnect_backoff * 2 ^ g.reconnect_attempts],
         { g with voice_client := some 1, reconnect_attempts := 0 })
      else
        let r := reconnectLoop
          { g with reconnect_attempts := g.reconnect_attempts + 1 } rest
        (reconnect_backoff * 2 ^ g.reconnect_attempts :: r.1, r.2)
    else ([], g)

/-- `_reconnect_to_voice` (voice.py lines 169-293): run the loop; when the attempts are
exhausted (`attempts >= max_reconnect_attempts` after the loop), clear the tenant's
current-song record (`player_state.clear_song`) and drop its transport handle
(`player_state.remove_voice_client`). -/
def reconnect_to_voice (g : VoiceGuildState) (outcomes : List Bool) :
    List Nat × VoiceGuildState :=
  let r := reconnectLoop g outcomes
  if max_reconnect_attempts ≤ r.2.reconnect_attempts then
    (r.1, { r.2 with current_song := none, voice_client := none })
  else r

end Voice

section CacheTheorems

variable {V E : Type}

theorem lookup_eq_none_of_not_mem {c : CacheMap V} {k : String} (h : k ∉ keysOf c) :
    lookup c k = none := by
  unfold lookup
  rw [List.find?_eq_none.mpr]
  · rfl
  · intro p hp hpk
    exact h (List.mem_map.mpr ⟨p, hp, of_decide_eq_true hpk⟩)

theorem get_or_compute_error_snd {c : CacheMap V} {k : String} {now ttl maxsize : Nat}
    {compute : Except E V} {err : E}
    (h : (get_or_compute c k now ttl maxsize compute).1 = Except.error err) :
    (get_or_compute c k now ttl maxsize compute).2 = c ∧ compute = Except.error err := by
  rcases hc : compute with err2 | v <;> subst hc <;>
    rcases hl : lookup c k with _ | e
  · simp only [get_or_compute, computeAndStore, hl] at h ⊢
    simp at h
    simp [h]
  · by_cases hexp : e.is_expired now = true <;>
      simp only [get_or_compute, computeAndStore, hl, hexp, if_true, if_false,
        Bool.not_eq_true] at h ⊢ <;> simp_all
  · simp only [get_or_compute, computeAndStore, hl] at h
    simp at h
  · by_cases hexp : e.is_expired now = true <;>
      simp only [get_or_compute, computeAndStore, hl, hexp, if_true, if_false,
        Bool.not_eq_true] at h <;> simp_all

/-- C2 counterexample: expiry uses a strict comparison, so a read at time exactly `T + D`
(here `T = 0`, `D = 10`, read at `10`) still sees the entry as unexpired: `get_or_compute`
returns the stale value as a hit, and `cleanup_expired` does not remove the entry. -/
theorem ttl_boundary_counterexample_C2 :
    CacheEntry.is_expired (V := Nat) ⟨42, 0 + 10⟩ (0 + 10) = false ∧
    (get_or_compute (E := Nat) [(exKey, ⟨42, 0 + 10⟩)] exKey (0 + 10) 10 128
        (Except.error 7)).1 = Except.ok 42 ∧
    cleanup_expired [(exKey, (⟨42, 0 + 10⟩ : CacheEntry Nat))] (0 + 10)
      = [(exKey, ⟨42, 0 + 10⟩)] := by
  refine ⟨rfl, rfl, rfl⟩

/-- C2 (amended): an entry inserted at time T with ttl D (so `expires_at = T + D`) is
reported expired for any read at time strictly greater than `T + D` (at exactly `T + D`
it is still served); at such a time `get_or_compute` does not return it as a hit but
takes the compute branch, and `cleanup_expired` keeps exactly the entries whose expiry
has not passed. -/
theorem ttl_expiry_C2 (c : CacheMap V) (k : String) (v : V) (T D now ttl maxsize : Nat)
    (compute : Except E V) (hnow : T + D < now) (hl : lookup c k = some ⟨v, T + D⟩) :
    CacheEntry.is_expired (⟨v, T + D⟩ : CacheEntry V) now = true ∧
    get_or_compute c k now ttl maxsize compute = computeAndStore c k now ttl maxsize compute ∧
    ∀ (c2 : CacheMap V) (k2 : String) (e : CacheEntry V),
      ((k2, e) ∈ cleanup_expired c2 now ↔ (k2, e) ∈ c2 ∧ ¬ (e.expires_at < now)) := by
  refine ⟨by simpa [CacheEntry.is_expired] using hnow, ?_, ?_⟩
  · unfold get_or_compute
    rw [hl]
    simp [CacheEntry.is_expired, hnow]
  · intro c2 k2 e
    simp [cleanup_expired, List.mem_filter, CacheEntry.is_expired]

/-- Witness for C2 (amended) at `T = 1`, `D = 2`, read at `4 > 3`. -/
theorem ttl_expiry_C2_witness :
    CacheEntry.is_expired (⟨(5 : Nat), 1 + 2⟩ : CacheEntry Nat) 4 = true ∧
    get_or_compute (E := Nat) [(exKey, ⟨5, 1 + 2⟩)] exKey 4 10 128 (Except.ok 9)
      = computeAndStore [(exKey, ⟨5, 1 + 2⟩)] exKey 4 10 128 (Except.ok 9) ∧
    ((exKey, (⟨5, 1 + 2⟩ : CacheEntry Nat)) ∈
        cleanup_expired [(exKey, (⟨5, 1 + 2⟩ : CacheEntry Nat))] 4 ↔
      (exKey, (⟨5, 1 + 2⟩ : CacheEntry Nat)) ∈ [(exKey, (⟨5, 1 + 2⟩ : CacheEntry Nat))] ∧
        ¬ ((⟨5, 1 + 2⟩ : CacheEntry Nat).expires_at < 4)) :=
  have h := ttl_expiry_C2 [(exKey, ⟨5, 1 + 2⟩)] exKey 5 1 2 4 10 128 (Except.ok 9)
    (by decide) (by decide)
  ⟨h.1, h.2.1, h.2.2 [(exKey, ⟨5, 1 + 2⟩)] exKey ⟨5, 1 + 2⟩⟩

/-- C4 counterexample: with an expired entry already stored for the key, a failing compute
propagates the error and leaves the mapping unchanged — but the mapping still holds an
entry for that key, so "left without an entry for that key" fails. -/
theorem failed_compute_counterexample_C4 :
    get_or_compute [(exKey, ⟨42, 10⟩)] exKey 20 60 128 (Except.error 7)
      = (Except.error 7, [(exKey, (⟨42, 10⟩ : CacheEntry Nat))]) ∧
    exKey ∈ keysOf [(exKey, (⟨42, 10⟩ : CacheEntry Nat))] := by
  exact ⟨rfl, by simp [keysOf]⟩

/-- C4 (amended): if the compute function raises during a `get_or_compute` miss (the key
absent or its entry expired), the call raises the same error and leaves the mapping
exactly as it was — no entry is added for the key (in particular a key that was absent
stays absent), a failed computation is never cached, and any later call for that key
still takes the compute branch. -/
theorem failed_compute_not_cached_C4 (c : CacheMap V) (k : String) (now ttl maxsize : Nat)
    (err : E) (hmiss : ∀ e, lookup c k = some e → e.is_expired now = true) :
    get_or_compute c k now ttl maxsize (Except.error err) = (Except.error err, c) ∧
    (k ∉ keysOf c →
      ∀ (now2 ttl2 maxsize2 : Nat) (compute : Except E V),
        get_or_compute c k now2 ttl2 maxsize2 compute
          = computeAndStore c k now2 ttl2 maxsize2 compute) ∧
    (∀ (now2 : Nat), now ≤ now2 →
      ∀ (ttl2 maxsize2 : Nat) (compute : Except E V),
        get_or_compute c k now2 ttl2 maxsize2 compute
          = computeAndStore c k now2 ttl2 maxsize2 compute) := by
  refine ⟨?_, ?_, ?_⟩
  · rcases hl : lookup c k with _ | e
    · simp [get_or_compute, computeAndStore, hl]
    · simp [get_or_compute, computeAndStore, hl, hmiss e hl]
  · intro habs now2 ttl2 maxsize2 compute
    simp [get_or_compute, lookup_eq_none_of_not_mem habs]
  · intro now2 hle ttl2 maxsize2 compute
    rcases hl : lookup c k with _ | e
    · simp [get_or_compute, hl]
    · have h1 := hmiss e hl
      have h2 : e.is_expired now2 = true := by
        simp only [CacheEntry.is_expired, decide_eq_true_eq] at h1 ⊢
        omega
      simp [get_or_compute, hl, h2]

/-- Witness for C4 (amended): an absent key with a failing compute, then a later
successful recomputation. -/
theorem failed_compute_not_cached_C4_witness :
    get_or_compute ([] : CacheMap Nat) exKey 0 60 128 (Except.error 7)
      = (Except.error 7, []) ∧
    get_or_compute ([] : CacheMap Nat) exKey 5 60 128 ((Except.ok 3) : Except Nat Nat)
      = computeAndStore [] exKey 5 60 128 ((Except.ok 3) : Except Nat Nat) :=
  have h := failed_compute_not_cached_C4 ([] : CacheMap Nat) exKey 0 60 128 (7 : Nat)
    (by intro e h; simp [lookup] at h)
  ⟨h.1, h.2.2 5 (by omega) 60 128 (Except.ok 3)⟩

end CacheTheorems

section QueueTheorems

variable {α : Type}

/-- C5: a queue holding exactly 500 entries rejects `add_song`, returning false with the
queue unchanged; a queue holding fewer than 500 entries gets the new entry appended at
the end with result true. -/
theorem add_song_bounded_C5 (q : List α) (s : α) :
    (q.length = 500 → add_song q s = (false, q)) ∧
    (q.length < 500 → add_song q s = (true, q ++ [s])) := by
  constructor
  · intro h
    simp [add_song, max_queue_size, h]
  · intro h
    simp only [add_song, max_queue_size]
    rw [if_neg (by omega)]

/-- Witness for C5: a full queue of 500 entries rejects, a singleton queue appends. -/
theorem add_song_bounded_C5_witness :
    add_song (List.replicate 500 (0 : Nat)) 1 = (false, List.replicate 500 0) ∧
    add_song [(0 : Nat)] 1 = (true, [0, 1]) :=
  ⟨(add_song_bounded_C5 (List.replicate 500 0) 1).1 (by rw [List.length_replicate]),
   (add_song_bounded_C5 [0] 1).2 (by norm_num)⟩

/-- C6 counterexample: the index -1 lies outside `0 ≤ i < 2`, yet `remove_song` on a
two-entry queue returns true and removes the last entry (Python `pop` accepts negative
indices), contradicting "returns false and the queue is unchanged". -/
theorem remove_song_counterexample_C6 :
    remove_song [(10 : Nat), 20] (-1) = (true, [10]) ∧ ¬ (0 ≤ (-1 : Int)) := by
  exact ⟨rfl, by decide⟩

/-- C6 (amended): `remove_song` returns false and leaves the queue unchanged exactly for
indices `i ≥ L` or `i < -L`; for `0 ≤ i < L` it removes exactly the entry at position `i`
and returns true; Python negative indices `-L ≤ i < 0` are also accepted and remove the
entry at position `L + i`. -/
theorem remove_song_C6 (l : List α) (i : Int) :
    (((l.length : Int) ≤ i ∨ i < -(l.length : Int)) → remove_song l i = (false, l)) ∧
    (0 ≤ i → i < (l.length : Int) → remove_song l i = (true, l.eraseIdx i.toNat)) ∧
    (-(l.length : Int) ≤ i → i < 0 → remove_song l i = (true, l.eraseIdx (i + l.length).toNat)) := by
  refine ⟨?_, ?_, ?_⟩
  · rintro (h | h)
    · have h0 : ¬ i < 0 := by omega
      have hj : l.length ≤ i.toNat := by omega
      simp [remove_song, pyPop, h0, List.getElem?_eq_none hj, (by omega : (0 : Int) ≤ i)]
    · have h0 : i < 0 := by omega
      have hneg : ¬ (0 ≤ i + (l.length : Int)) := by omega
      simp [remove_song, pyPop, h0, hneg]
  · intro h0 hL
    have hni : ¬ i < 0 := by omega
    have hj : i.toNat < l.length := by omega
    simp [remove_song, pyPop, hni, h0, List.getElem?_eq_getElem hj]
  · intro hge hlt
    have hnn : 0 ≤ i + (l.length : Int) := by omega
    have hj : (i + (l.length : Int)).toNat < l.length := by omega
    simp [remove_song, pyPop, hlt, hnn, List.getElem?_eq_getElem hj]

/-- Witness for C6 (amended) on the queue `[10, 20, 30]`: index 5 is rejected, index 1
removes the middle entry, index -3 removes the front entry. -/
theorem remove_song_C6_witness :
    remove_song [(10 : Nat), 20, 30] 5 = (false, [10, 20, 30]) ∧
    remove_song [(10 : Nat), 20, 30] 1 = (true, [10, 30]) ∧
    remove_song [(10 : Nat), 20, 30] (-3) = (true, [20, 30]) :=
  ⟨(remove_song_C6 [10, 20, 30] 5).1 (Or.inl (by decide)),
   (remove_song_C6 [10, 20, 30] 1).2.1 (by decide) (by decide),
   (remove_song_C6 [10, 20, 30] (-3)).2.2 (by decide) (by decide)⟩

/-- C7: with both indices in range, `move_song` returns true, the result has the same
length, the entry previously at position `i` sits exactly at position `j`, and deleting
position `j` from the result equals deleting position `i` from the original (so the
relative order of all other entries is preserved); with either index out of bounds it
returns false and the queue is unchanged. -/
theorem move_song_C7 (l : List α) (i j : Int) :
    ((0 ≤ i ∧ i < (l.length : Int) ∧ 0 ≤ j ∧ j < (l.length : Int)) →
      (move_song l i j).1 = true ∧
      (move_song l i j).2.length = l.length ∧
      (move_song l i j).2.get? j.toNat = l.get? i.toNat ∧
      (move_song l i j).2.eraseIdx j.toNat = l.eraseIdx i.toNat) ∧
    (¬ (0 ≤ i ∧ i < (l.length : Int) ∧ 0 ≤ j ∧ j < (l.length : Int)) →
      move_song l i j = (false, l)) := by
  constructor
  · rintro ⟨hi0, hiL, hj0, hjL⟩
    have hni : ¬ i < 0 := by omega
    have hj : i.toNat < l.length := by omega
    rcases List.get?_eq_get (l := l) (n := i.toNat) hj with hget
    have hmove : move_song l i j
        = (true, (l.eraseIdx i.toNat).insertIdx j.toNat (l.get ⟨i.toNat, hj⟩)) := by
      simp [move_song, pyPop, hni, hi0, hiL, hj0, hjL, hget]
    have hlen_erase : (l.eraseIdx i.toNat).length = l.length - 1 :=
      List.length_eraseIdx_of_lt (by omega)
    have hjle : j.toNat ≤ (l.eraseIdx i.toNat).length := by omega
    refine ⟨by rw [hmove], ?_, ?_, ?_⟩
    · rw [hmove]
      simp only [List.length_insertIdx _ _ hjle, hlen_erase]
      omega
    · rw [hmove, hget]
      simp only
      rw [List.get?_eq_get (by rw [List.length_insertIdx _ _ hjle]; omega)]
      rw [List.get_insertIdx_self _ _ _ hjle]
    · rw [hmove]
      simp only
      exact List.eraseIdx_insertIdx j.toNat (l.eraseIdx i.toNat)
  · intro h
    rw [move_song, if_neg h]

/-- Witness for C7 on `[10, 20, 30]`: moving position 0 to position 2, and a rejected
out-of-bounds move. -/
theorem move_song_C7_witness :
    ((move_song [(10 : Nat), 20, 30] 0 2).1 = true ∧
      (move_song [(10 : Nat), 20, 30] 0 2).2.length = 3 ∧
      (move_song [(10 : Nat), 20, 30] 0 2).2.get? 2 = some 10 ∧
      (move_song [(10 : Nat), 20, 30] 0 2).2.eraseIdx 2 = [20, 30]) ∧
    move_song [(10 : Nat), 20, 30] 0 3 = (false, [10, 20, 30]) :=
  ⟨(move_song_C7 [10, 20, 30] 0 2).1 (by refine ⟨by decide, by decide, by decide, by decide⟩),
   (move_song_C7 [10, 20, 30] 0 3).2 (by decide)⟩

end QueueTheorems

section PlayerTheorems

variable {V E : Type}

theorem applyCycles_closed (s : PlayerTiming) (cycles : List (Int × Int))
    (h : s.last_pause_time = none) :
    applyCycles s cycles =
      { song_start_time := s.song_start_time,
        pause_duration := s.pause_duration + (cycles.map (fun c => c.2 - c.1)).sum,
        last_pause_time := none } := by
  induction cycles generalizing s with
  | nil =>
    simp [applyCycles]
    cases s
    simp_all
  | cons c rest ih =>
    simp only [applyCycles, List.foldl_cons] at ih ⊢
    rw [ih (handle_resume (handle_pause s c.1) c.2) (by simp [handle_pause, handle_resume])]
    simp [handle_pause, handle_resume, List.sum_cons]
    ring

/-- C8: for a session started at T0 and any number of completed pause/resume cycles, a
progress query at time T while not paused reports elapsed time `T - T0 - P`, where P is
the total accumulated pause duration of the cycles. -/
theorem elapsed_accounting_C8 (T0 T : Int) (cycles : List (Int × Int)) :
    (applyCycles (update_song_timing T0) cycles).last_pause_time = none ∧
    elapsedTime (applyCycles (update_song_timing T0) cycles) false T
      = T - T0 - (cycles.map (fun c => c.2 - c.1)).sum := by
  rw [applyCycles_closed (update_song_timing T0) cycles rfl]
  simp [update_song_timing, elapsedTime]

/-- C10: when no pause start is recorded (in particular right after a resume),
`handle_resume` is a no-op on all session timing fields; hence a second consecutive
resume never changes the state again, while a second consecutive pause overwrites the
recorded pause start. -/
theorem handle_resume_noop_C10 (s : PlayerTiming) (t : Int)
    (h : s.last_pause_time = none) :
    handle_resume s t = s ∧
    (∀ (s2 : PlayerTiming) (u u2 : Int),
      handle_resume (handle_resume s2 u) u2 = handle_resume s2 u) ∧
    (∀ (s2 : PlayerTiming) (u u2 : Int),
      handle_pause (handle_pause s2 u) u2 = handle_pause s2 u2) := by
  refine ⟨by simp [handle_resume, h], ?_, ?_⟩
  · intro s2 u u2
    rcases hs : s2.last_pause_time with _ | p <;> simp [handle_resume, hs]
  · intro s2 u u2
    simp [handle_pause]

/-- Witness for C10 at a concrete just-resumed state. -/
theorem handle_resume_noop_C10_witness :
    handle_resume ⟨100, 7, none⟩ 42 = ⟨100, 7, none⟩ ∧
    handle_resume (handle_resume ⟨100, 7, some 30⟩ 40) 42
      = handle_resume ⟨100, 7, some 30⟩ 40 ∧
    handle_pause (handle_pause ⟨100, 7, none⟩ 40) 42 = handle_pause ⟨100, 7, none⟩ 42 :=
  have h := handle_resume_noop_C10 ⟨100, 7, none⟩ 42 rfl
  ⟨h.1, h.2.1 ⟨100, 7, some 30⟩ 40 42, h.2.2 ⟨100, 7, none⟩ 40 42⟩

theorem extract_song_info_ok (c : CacheMap V) (k : String) (now ttl maxsize : Nat)
    (impl1 impl2 : Except E V) (v : V)
    (h : (get_or_compute c k now ttl maxsize impl1).1 = Except.ok v) :
    extract_song_info c k now ttl maxsize impl1 impl2
      = (Except.ok v, (get_or_compute c k now ttl maxsize impl1).2) := by
  unfold extract_song_info
  rcases hg : get_or_compute c k now ttl maxsize impl1 with ⟨r, c2⟩
  rw [hg] at h
  simp at h
  subst h
  rfl

/-- C9: track-metadata resolution first calls the cache's `get_or_compute`; when that
call returns a value the value is returned, and when it raises any error the error is
not propagated — one direct uncached extraction attempt is made and its result returned
(its own error included), with the cache mapping left as it was. -/
theorem extract_song_info_fallback_C9 (c : CacheMap V) (k : String)
    (now ttl maxsize : Nat) (impl1 impl2 : Except E V) :
    (∀ v, (get_or_compute c k now ttl maxsize impl1).1 = Except.ok v →
      extract_song_info c k now ttl maxsize impl1 impl2
        = (Except.ok v, (get_or_compute c k now ttl maxsize impl1).2)) ∧
    (∀ err, (get_or_compute c k now ttl maxsize impl1).1 = Except.error err →
      extract_song_info c k now ttl maxsize impl1 impl2 = (impl2, c)) := by
  constructor
  · intro v h
    exact extract_song_info_ok c k now ttl maxsize impl1 impl2 v h
  · intro err h
    have hsnd := (get_or_compute_error_snd h).1
    unfold extract_song_info
    rcases hg : get_or_compute c k now ttl maxsize impl1 with ⟨r, c2⟩
    rw [hg] at h hsnd
    simp at h hsnd
    subst h
    subst hsnd
    rfl

/-- Witness for C9: an empty cache with a failing first extraction and a succeeding
direct fallback returns the fallback value with the cache untouched. -/
theorem extract_song_info_fallback_C9_witness :
    extract_song_info ([] : CacheMap Nat) exKey 0 60 128
        (Except.error (7 : Nat)) (Except.ok 5)
      = (Except.ok 5, []) :=
  (extract_song_info_fallback_C9 ([] : CacheMap Nat) exKey 0 60 128
    (Except.error 7) (Except.ok 5)).2 7 rfl

end PlayerTheorems

section VoiceTheorems

theorem reconnectLoop_stopped (g : VoiceGuildState)
    (h : max_reconnect_attempts ≤ g.reconnect_attempts) (outcomes : List Bool) :
    reconnectLoop g outcomes = ([], g) := by
  cases outcomes with
  | nil => rfl
  | cons o rest => simp [reconnectLoop, Nat.not_lt.mpr h]

theorem reconnectLoop_cons_true (g : VoiceGuildState)
    (hlt : g.reconnect_attempts < max_reconnect_attempts) (rest : List Bool) :
    reconnectLoop g (true :: rest)
      = ([reconnect_backoff * 2 ^ g.reconnect_attempts],
         { g with voice_client := some 1, reconnect_attempts := 0 }) := by
  simp [reconnectLoop, hlt]

theorem reconnectLoop_cons_false (g : VoiceGuildState)
    (hlt : g.reconnect_attempts < max_reconnect_attempts) (rest : List Bool) :
    reconnectLoop g (false :: rest)
      = (reconnect_backoff * 2 ^ g.reconnect_attempts ::
          (reconnectLoop { g with reconnect_attempts := g.reconnect_attempts + 1 } rest).1,
         (reconnectLoop { g with reconnect_attempts := g.reconnect_attempts + 1 } rest).2) := by
  simp [reconnectLoop, hlt]

theorem reconnectLoop_length (outcomes : List Bool) (g : VoiceGuildState) :
    (reconnectLoop g outcomes).1.length + g.reconnect_attempts ≤ max_reconnect_attempts ∨
      (reconnectLoop g outcomes).1.length = 0 := by
  induction outcomes generalizing g with
  | nil => right; rfl
  | cons o rest ih =>
    by_cases hlt : g.reconnect_attempts < max_reconnect_attempts
    · cases o
      · rw [reconnectLoop_cons_false g hlt rest]
        left
        rcases ih { g with reconnect_attempts := g.reconnect_attempts + 1 } with h | h <;>
          simp only [List.length_cons] at h ⊢ <;> omega
      · rw [reconnectLoop_cons_true g hlt rest]
        left
        simp only [List.length_cons, List.length_nil]
        omega
    · right
      rw [reconnectLoop_stopped g (by omega) (o :: rest)]
      rfl

theorem reconnectLoop_wait_values (outcomes : List Bool) (g : VoiceGuildState) (k : Nat) :
    k < (reconnectLoop g outcomes).1.length →
      (reconnectLoop g outcomes).1[k]?
        = some (reconnect_backoff * 2 ^ (g.reconnect_attempts + k)) := by
  induction outcomes generalizing g k with
  | nil => intro h; simp [reconnectLoop] at h
  | cons o rest ih =>
    intro h
    by_cases hlt : g.reconnect_attempts < max_reconnect_attempts
    · cases o
      · rw [reconnectLoop_cons_false g hlt rest] at h ⊢
        rcases k with _ | k2
        · simp
        · simp only [List.length_cons, Nat.add_lt_add_iff_right] at h
          simp only [List.getElem?_cons_succ]
          rw [ih { g with reconnect_attempts := g.reconnect_attempts + 1 } k2 h]
          have he : g.reconnect_attempts + 1 + k2 = g.reconnect_attempts + (k2 + 1) := by
            omega
          simp [he]
      · rw [reconnectLoop_cons_true g hlt rest] at h ⊢
        rcases k with _ | k2
        · simp
        · simp at h
    · rw [reconnectLoop_stopped g (by omega) (o :: rest)] at h
      simp at h

theorem reconnectLoop_three_failures (cs vcl : Option Nat) (rest : List Bool) :
    reconnectLoop ⟨cs, vcl, 0⟩ (false :: false :: false :: rest)
      = ([5, 10, 20], ⟨cs, vcl, 3⟩) := by
  have hstop := reconnectLoop_stopped ⟨cs, vcl, 3⟩
    (by simp [max_reconnect_attempts]) rest
  rw [reconnectLoop_cons_false _ (by simp [max_reconnect_attempts]) _]
  rw [show ({ (⟨cs, vcl, 0⟩ : VoiceGuildState) with reconnect_attempts := 0 + 1 } :
      VoiceGuildState) = ⟨cs, vcl, 1⟩ from rfl]
  rw [reconnectLoop_cons_false _ (by simp [max_reconnect_attempts]) _]
  rw [show ({ (⟨cs, vcl, 1⟩ : VoiceGuildState) with reconnect_attempts := 1 + 1 } :
      VoiceGuildState) = ⟨cs, vcl, 2⟩ from rfl]
  rw [reconnectLoop_cons_false _ (by simp [max_reconnect_attempts]) _]
  rw [show ({ (⟨cs, vcl, 2⟩ : VoiceGuildState) with reconnect_attempts := 2 + 1 } :
      VoiceGuildState) = ⟨cs, vcl, 3⟩ from rfl]
  rw [hstop]
  rfl

/-- C3: starting from attempt counter 0, reconnection attempt k (0-indexed) is preceded
by a wait of exactly `5 * 2 ^ k` seconds; at most 3 attempts are made, and when the
first 3 attempts all fail the loop performs no further attempt (exactly the waits
5, 10, 20 occur), the tenant's current-song record is cleared and its transport handle
removed. -/
theorem reconnect_backoff_C3 (song vc : Nat) (outcomes : List Bool) :
    (∀ (k : Nat), k < (reconnect_to_voice ⟨some song, some vc, 0⟩ outcomes).1.length →
      (reconnect_to_voice ⟨some song, some vc, 0⟩ outcomes).1[k]? = some (5 * 2 ^ k)) ∧
    (reconnect_to_voice ⟨some song, some vc, 0⟩ outcomes).1.length ≤ 3 ∧
    (∀ rest, outcomes = false :: false :: false :: rest →
      (reconnect_to_voice ⟨some song, some vc, 0⟩ outcomes).1 = [5, 10, 20] ∧
      (reconnect_to_voice ⟨some song, some vc, 0⟩ outcomes).2.current_song = none ∧
      (reconnect_to_voice ⟨some song, some vc, 0⟩ outcomes).2.voice_client = none) := by
  have hfst : (reconnect_to_voice ⟨some song, some vc, 0⟩ outcomes).1
      = (reconnectLoop ⟨some song, some vc, 0⟩ outcomes).1 := by
    by_cases hc : max_reconnect_attempts ≤
        (reconnectLoop ⟨some song, some vc, 0⟩ outcomes).2.reconnect_attempts <;>
      simp [reconnect_to_voice, hc]
  refine ⟨?_, ?_, ?_⟩
  · intro k h
    rw [hfst] at h ⊢
    have := reconnectLoop_wait_values outcomes ⟨some song, some vc, 0⟩ k h
    simpa [reconnect_backoff] using this
  · rw [hfst]
    rcases reconnectLoop_length outcomes ⟨some song, some vc, 0⟩ with h | h
    · simp only [max_reconnect_attempts] at h
      omega
    · omega
  · intro rest hout
    subst hout
    have h3 := reconnectLoop_three_failures (some song) (some vc) rest
    unfold reconnect_to_voice
    rw [h3]
    simp [max_reconnect_attempts]

/-- Witness for C3: three failing attempts from a fresh counter wait 5, 10 and 20
seconds, then session and transport handle are cleared. -/
theorem reconnect_backoff_C3_witness :
    (reconnect_to_voice ⟨some 9, some 4, 0⟩ [false, false, false]).1 = [5, 10, 20] ∧
    (reconnect_to_voice ⟨some 9, some 4, 0⟩ [false, false, false]).2.current_song = none ∧
    (reconnect_to_voice ⟨some 9, some 4, 0⟩ [false, false, false]).2.voice_client = none :=
  (reconnect_backoff_C3 9 4 [false, false, false]).2.2 [] rfl

end VoiceTheorems

section CacheInvariantTheorems

variable {V : Type}

theorem keysOf_storeEntry_mem (c : CacheMap V) (k : String) (e : CacheEntry V)
    (h : k ∈ keysOf c) : keysOf (storeEntry c k e) = keysOf c := by
  unfold storeEntry
  rw [if_pos h]
  unfold keysOf
  rw [List.map_map]
  apply List.map_congr_left
  intro p _
  by_cases hp : p.1 = k <;> simp [Function.comp, hp]

theorem keysOf_storeEntry_not_mem (c : CacheMap V) (k : String) (e : CacheEntry V)
    (h : k ∉ keysOf c) : keysOf (storeEntry c k e) = keysOf c ++ [k] := by
  unfold storeEntry
  rw [if_neg h]
  simp [keysOf]

theorem keysNodup_storeEntry (c : CacheMap V) (k : String) (e : CacheEntry V)
    (hn : KeysNodup c) : KeysNodup (storeEntry c k e) := by
  by_cases hm : k ∈ keysOf c
  · unfold KeysNodup
    rw [keysOf_storeEntry_mem c k e hm]
    exact hn
  · unfold KeysNodup
    rw [keysOf_storeEntry_not_mem c k e hm, List.nodup_append]
    refine ⟨hn, List.nodup_singleton k, ?_⟩
    intro a ha hb
    rw [List.mem_singleton] at hb
    subst hb
    exact hm ha

theorem keysNodup_sublist {c2 c : CacheMap V} (hs : c2.Sublist c) (hn : KeysNodup c) :
    KeysNodup c2 := by
  unfold KeysNodup keysOf at hn ⊢
  exact List.Nodup.sublist (List.Sublist.map (fun p => p.1) hs) hn

theorem trimCache_of_le (c : CacheMap V) (maxsize : Nat) (h : c.length ≤ maxsize) :
    trimCache c maxsize = c := by
  simp [trimCache, Nat.not_lt.mpr h]

theorem trimCache_pos (c : CacheMap V) (maxsize : Nat) (h : maxsize < c.length) :
    trimCache c maxsize = c.filter (fun p => decide (p.1 ∉ oldestKeys c maxsize)) := by
  simp [trimCache, h]

theorem sortByExpiry_perm (c : CacheMap V) : List.Perm (sortByExpiry c) c :=
  List.mergeSort_perm c _

theorem sortByExpiry_sorted (c : CacheMap V) :
    (sortByExpiry c).Pairwise
      (fun a b => decide (a.2.expires_at ≤ b.2.expires_at) = true) := by
  unfold sortByExpiry
  apply List.sorted_mergeSort
  · intro a b d hab hbd
    simp only [decide_eq_true_eq] at hab hbd ⊢
    omega
  · intro a b
    simp only [Bool.or_eq_true, decide_eq_true_eq]
    omega

theorem sorted_filter_oldest (c : CacheMap V) (maxsize : Nat) (hn : KeysNodup c) :
    (sortByExpiry c).filter (fun p => decide (p.1 ∉ oldestKeys c maxsize))
      = (sortByExpiry c).drop (c.length - maxsize) := by
  have hkeys : (keysOf (sortByExpiry c)).Nodup := by
    unfold KeysNodup at hn
    unfold keysOf at hn ⊢
    exact (List.Perm.nodup_iff ((sortByExpiry_perm c).map (fun p => p.1))).mpr hn
  have hsplit : keysOf (sortByExpiry c)
      = keysOf ((sortByExpiry c).take (c.length - maxsize))
        ++ keysOf ((sortByExpiry c).drop (c.length - maxsize)) := by
    unfold keysOf
    rw [← List.map_append, List.take_append_drop]
  have htake : ∀ a ∈ (sortByExpiry c).take (c.length - maxsize),
      ¬ (decide (a.1 ∉ oldestKeys c maxsize) = true) := by
    intro a ha
    simp only [decide_eq_true_eq, Decidable.not_not]
    exact List.mem_map_of_mem (fun q => q.1) ha
  have hdrop : ∀ a ∈ (sortByExpiry c).drop (c.length - maxsize),
      decide (a.1 ∉ oldestKeys c maxsize) = true := by
    intro a ha
    simp only [decide_eq_true_eq]
    intro hmem
    have hd := hkeys
    rw [hsplit, List.nodup_append] at hd
    exact hd.2.2 hmem (List.mem_map_of_mem (fun p => p.1) ha)
  conv_lhs => rw [← List.take_append_drop (c.length - maxsize) (sortByExpiry c)]
  rw [List.filter_append, List.filter_eq_nil_iff.mpr htake,
    List.filter_eq_self.mpr hdrop, List.nil_append]

theorem trimCache_spec (c : CacheMap V) (maxsize : Nat)
    (hn : KeysNodup c) (hlen : maxsize < c.length) :
    (trimCache c maxsize).Sublist c ∧
    (trimCache c maxsize).length = maxsize ∧
    (∀ r ∈ c, r ∉ trimCache c maxsize → ∀ e2 ∈ trimCache c maxsize,
      r.2.expires_at ≤ e2.2.expires_at) := by
  have hperm := sortByExpiry_perm c
  have htrim := trimCache_pos c maxsize hlen
  have hfilter : List.Perm (c.filter (fun p => decide (p.1 ∉ oldestKeys c maxsize)))
      ((sortByExpiry c).drop (c.length - maxsize)) := by
    rw [← sorted_filter_oldest c maxsize hn]
    exact (List.Perm.filter _ hperm).symm
  refine ⟨?_, ?_, ?_⟩
  · rw [htrim]
    exact List.filter_sublist c
  · rw [htrim, hfilter.length_eq, List.length_drop, hperm.length_eq]
    omega
  · intro r hr hnotin e2 he2
    rw [htrim] at hnotin he2
    have hrmem : r.1 ∈ oldestKeys c maxsize := by
      by_contra hkr
      exact hnotin (List.mem_filter.mpr ⟨hr, by simpa using hkr⟩)
    obtain ⟨a, ha_take, ha_key⟩ := List.mem_map.mp hrmem
    have hr_s : r ∈ sortByExpiry c := hperm.mem_iff.mpr hr
    have ha_s : a ∈ sortByExpiry c := List.mem_of_mem_take ha_take
    have hkeys : (keysOf (sortByExpiry c)).Nodup := by
      unfold KeysNodup at hn
      unfold keysOf at hn ⊢
      exact (List.Perm.nodup_iff (hperm.map (fun p => p.1))).mpr hn
    have har : a = r := List.inj_on_of_nodup_map hkeys ha_s hr_s ha_key
    have hr_take : r ∈ (sortByExpiry c).take (c.length - maxsize) := har ▸ ha_take
    have he2_drop : e2 ∈ (sortByExpiry c).drop (c.length - maxsize) :=
      hfilter.mem_iff.mp he2
    have hpw : ((sortByExpiry c).take (c.length - maxsize)
        ++ (sortByExpiry c).drop (c.length - maxsize)).Pairwise
        (fun a b => decide (a.2.expires_at ≤ b.2.expires_at) = true) := by
      rw [List.take_append_drop]
      exact sortByExpiry_sorted c
    have := (List.pairwise_append.mp hpw).2.2 r hr_take e2 he2_drop
    exact of_decide_eq_true this

theorem keysNodup_trimCache (c : CacheMap V) (maxsize : Nat) (hn : KeysNodup c) :
    KeysNodup (trimCache c maxsize) := by
  unfold trimCache
  split
  · exact keysNodup_sublist (List.filter_sublist c) hn
  · exact hn

theorem length_trimCache_le (c : CacheMap V) (maxsize : Nat) (hn : KeysNodup c) :
    (trimCache c maxsize).length ≤ maxsize := by
  by_cases h : maxsize < c.length
  · exact le_of_eq (trimCache_spec c maxsize hn h).2.1
  · rw [trimCache_of_le c maxsize (by omega)]
    omega

theorem get_or_compute_invariant (c : CacheMap Nat) (k : String)
    (now ttl maxsize v : Nat) (hn : KeysNodup c) (hlen : c.length ≤ maxsize) :
    KeysNodup (get_or_compute (E := Unit) c k now ttl maxsize (Except.ok v)).2 ∧
    (get_or_compute (E := Unit) c k now ttl maxsize (Except.ok v)).2.length ≤ maxsize := by
  have hstore := keysNodup_storeEntry c k (⟨v, now + ttl⟩ : CacheEntry Nat) hn
  rcases hl : lookup c k with _ | e
  · simp only [get_or_compute, computeAndStore, hl]
    exact ⟨keysNodup_trimCache _ _ hstore, length_trimCache_le _ _ hstore⟩
  · by_cases hexp : e.is_expired now = true
    · simp only [get_or_compute, computeAndStore, hl, hexp, if_true]
      exact ⟨keysNodup_trimCache _ _ hstore, length_trimCache_le _ _ hstore⟩
    · simp only [get_or_compute, computeAndStore, hl, hexp, if_false,
        Bool.false_eq_true]
      exact ⟨hn, hlen⟩

theorem runGets_invariant (ttl maxsize : Nat) (ops : List (String × Nat × Nat)) :
    KeysNodup (runGets ttl maxsize ops) ∧ (runGets ttl maxsize ops).length ≤ maxsize := by
  suffices h : ∀ (c : CacheMap Nat), KeysNodup c → c.length ≤ maxsize →
      KeysNodup (ops.foldl (fun c2 op =>
        (get_or_compute (E := Unit) c2 op.1 op.2.1 ttl maxsize (Except.ok op.2.2)).2) c) ∧
      (ops.foldl (fun c2 op =>
        (get_or_compute (E := Unit) c2 op.1 op.2.1 ttl maxsize (Except.ok op.2.2)).2)
        c).length ≤ maxsize by
    exact h [] (by simp [KeysNodup, keysOf]) (by simp)
  induction ops with
  | nil => intro c hn hlen; exact ⟨hn, hlen⟩
  | cons op rest ih =>
    intro c hn hlen
    simp only [List.foldl_cons]
    have hstep := get_or_compute_invariant c op.1 op.2.1 ttl maxsize op.2.2 hn hlen
    exact ih _ hstep.1 hstep.2

/-- C1: after every run of successful `get_or_compute` insertions on an
`AsyncLRUCache(maxsize, ttl)` the number of stored entries is at most `maxsize`;
moreover, for the store step of any next insertion: when it does not push the size over
`maxsize` the trim removes nothing, and when it does, the trimmed mapping is a
subsequence of the post-insert mapping (no other entry removed, order kept) of length
exactly `maxsize`, and every removed entry has `expires_at` at most that of every kept
entry (the `size - maxsize` entries with the soonest expiry are evicted). -/
theorem cache_size_eviction_C1 (ttl maxsize : Nat) (ops : List (String × Nat × Nat)) :
    (runGets ttl maxsize ops).length ≤ maxsize ∧
    ∀ (k : String) (now v : Nat),
      ((storeEntry (runGets ttl maxsize ops) k ⟨v, now + ttl⟩).length ≤ maxsize →
        trimCache (storeEntry (runGets ttl maxsize ops) k ⟨v, now + ttl⟩) maxsize
          = storeEntry (runGets ttl maxsize ops) k ⟨v, now + ttl⟩) ∧
      (maxsize < (storeEntry (runGets ttl maxsize ops) k ⟨v, now + ttl⟩).length →
        (trimCache (storeEntry (runGets ttl maxsize ops) k ⟨v, now + ttl⟩) maxsize).Sublist
          (storeEntry (runGets ttl maxsize ops) k ⟨v, now + ttl⟩) ∧
        (trimCache (storeEntry (runGets ttl maxsize ops) k ⟨v, now + ttl⟩)
          maxsize).length = maxsize ∧
        ∀ r ∈ storeEntry (runGets ttl maxsize ops) k ⟨v, now + ttl⟩,
          r ∉ trimCache (storeEntry (runGets ttl maxsize ops) k ⟨v, now + ttl⟩) maxsize →
          ∀ e2 ∈ trimCache (storeEntry (runGets ttl maxsize ops) k ⟨v, now + ttl⟩) maxsize,
            r.2.expires_at ≤ e2.2.expires_at) := by
  have hinv := runGets_invariant ttl maxsize ops
  refine ⟨hinv.2, ?_⟩
  intro k now v
  have hns := keysNodup_storeEntry (runGets ttl maxsize ops) k ⟨v, now + ttl⟩ hinv.1
  exact ⟨fun h => trimCache_of_le _ _ h, fun h => trimCache_spec _ maxsize hns h⟩

/-- Witness for C1: with `maxsize = 1` and one stored entry, re-storing the same key
keeps the size at 1 and trims nothing, while inserting a second key pushes the size to
2 and the trim brings it back to exactly 1. -/
theorem cache_size_eviction_C1_witness :
    (runGets 10 1 [(exKey, 0, 5)]).length ≤ 1 ∧
    trimCache (storeEntry (runGets 10 1 [(exKey, 0, 5)]) exKey ⟨9, 0 + 10⟩) 1
      = storeEntry (runGets 10 1 [(exKey, 0, 5)]) exKey ⟨9, 0 + 10⟩ ∧
    (trimCache (storeEntry (runGets 10 1 [(exKey, 0, 5)]) exKey2 ⟨7, 0 + 10⟩) 1).length
      = 1 :=
  have h := cache_size_eviction_C1 10 1 [(exKey, 0, 5)]
  ⟨h.1, (h.2 exKey 0 9).1 (by decide), ((h.2 exKey2 0 7).2 (by decide)).2.1⟩

end CacheInvariantTheorems

end GaanBot
